import Mathlib

/-!
# Verification of `PriorityQueue` (priorityqueue.hh)

The C++ class stores its entries in a single `std::multiset<std::pair<V, K>>`
named `container`: each entry is the pair `(value, key)`, and `std::multiset`
keeps its elements sorted in nondecreasing lexicographic `std::pair` order
(value first, key second), with equal elements adjacent.

We embed a queue as the in-order element sequence of that multiset: a list of
lexicographically ordered pairs, sorted nondecreasingly (`IsPQ`).  Operations
that can throw are embedded as `Except`-valued functions, with the two
exception classes of the header as the error type.

The header file contains two versions of the class: an earlier draft (whose
`deleteMin`/`deleteMax` throw `PriorityQueueEmptyException` on an empty queue)
and the final version (whose `deleteMin`/`deleteMax` silently do nothing on an
empty queue).  The final version is embedded under the original names; the
draft's `deleteMin`/`deleteMax`, the only place where the two versions differ
in observable behaviour, are embedded as `deleteMin_v1`/`deleteMax_v1`.
-/

namespace PriorityQueueSpec

/-- The two exception classes of the header:
`PriorityQueueNotFoundException` and `PriorityQueueEmptyException`. -/
inductive PQError where
  | notFound
  | emptyQueue
  deriving DecidableEq, Repr

variable {K V : Type*} [LinearOrder K] [LinearOrder V]

/-- One stored element: `std::pair<V, K>` compared lexicographically
(`value` first, then `key`), exactly the comparison `std::multiset` uses. -/
abbrev Entry (K V : Type*) := V ×ₗ K

/-- The state of the member `std::multiset<std::pair<V,K>> container`:
its in-order element sequence, a list sorted nondecreasingly. -/
abbrev PQ (K V : Type*) := List (Entry K V)

/-- The representation invariant of `std::multiset`: the element sequence is
sorted nondecreasingly in the lexicographic pair order. -/
def IsPQ (q : PQ K V) : Prop := q.Sorted (· ≤ ·)

instance (q : PQ K V) : Decidable (IsPQ q) := List.decidableSorted q

/-- `empty()`: `container.empty()`. -/
def empty (q : PQ K V) : Bool := q.isEmpty

/-- `size()`: `container.size()`. -/
def size (q : PQ K V) : Nat := q.length

/-- `insert(key, value)`: `container.insert(make_pair(value, key))`.
`std::multiset::insert` places the new element at the end of its range of
equal elements; since elements equal in the lexicographic order are equal
pairs, the resulting sequence is the same list as `List.orderedInsert`
produces. -/
def insert (q : PQ K V) (key : K) (value : V) : PQ K V :=
  q.orderedInsert (· ≤ ·) (toLex (value, key))

/-- `minValue()`: throws `PriorityQueueEmptyException` when empty, otherwise
returns `container.begin()->first` (the value of the first element). -/
def minValue (q : PQ K V) : Except PQError V :=
  match q with
  | [] => .error .emptyQueue
  | e :: _ => .ok (ofLex e).1

/-- `minKey()`: throws `PriorityQueueEmptyException` when empty, otherwise
returns `container.begin()->second`. -/
def minKey (q : PQ K V) : Except PQError K :=
  match q with
  | [] => .error .emptyQueue
  | e :: _ => .ok (ofLex e).2

/-- `maxValue()`: throws `PriorityQueueEmptyException` when empty, otherwise
returns `container.rbegin()->first` (the value of the last element). -/
def maxValue (q : PQ K V) : Except PQError V :=
  match q.getLast? with
  | none => .error .emptyQueue
  | some e => .ok (ofLex e).1

/-- `maxKey()`: throws `PriorityQueueEmptyException` when empty, otherwise
returns `container.rbegin()->second`. -/
def maxKey (q : PQ K V) : Except PQError K :=
  match q.getLast? with
  | none => .error .emptyQueue
  | some e => .ok (ofLex e).2

/-- `deleteMin()`, final version: `if (empty()) return;` then
`container.erase(container.begin())`. -/
def deleteMin (q : PQ K V) : PQ K V :=
  match q with
  | [] => []
  | _ :: t => t

/-- `deleteMax()`, final version: `if (empty()) return;` then erase the
element before `container.end()` (the last element). -/
def deleteMax (q : PQ K V) : PQ K V :=
  q.dropLast

/-- `deleteMin()` of the earlier draft version in the same header:
`if (empty()) throw PriorityQueueEmptyException();` then erase `begin()`. -/
def deleteMin_v1 (q : PQ K V) : Except PQError (PQ K V) :=
  match q with
  | [] => .error .emptyQueue
  | _ :: t => .ok t

/-- `deleteMax()` of the earlier draft version in the same header:
`if (empty()) throw PriorityQueueEmptyException();` then erase the last
element. -/
def deleteMax_v1 (q : PQ K V) : Except PQError (PQ K V) :=
  match q with
  | [] => .error .emptyQueue
  | _ :: _ => .ok q.dropLast

/-- `changeValue(key, value)`:
```
std::pair<V, K> pair(value, key);
auto it = container.upper_bound(pair);
if (it == container.begin()) throw PriorityQueueNotFoundException();
it--;
container.erase(it);
insert(key, value);
```
`upper_bound(pair)` is the first element greater than `pair`; it equals
`begin()` exactly when no element is `≤ pair`, i.e. when the `≤ pair` prefix
of the sorted sequence is empty.  Otherwise `it--` lands on the last element
of that prefix, `erase(it)` removes exactly that one element, and the new
pair `(value, key)` is inserted.  (The key-membership check is commented out
in the source.) -/
def changeValue (q : PQ K V) (key : K) (value : V) : Except PQError (PQ K V) :=
  let pair : Entry K V := toLex (value, key)
  let below := q.takeWhile (fun e => decide (e ≤ pair))
  if below.isEmpty then
    .error .notFound
  else
    .ok (insert (below.dropLast ++ q.dropWhile (fun e => decide (e ≤ pair))) key value)

/-- `merge(queue)` for two distinct containers:
```
while (!queue.empty()) {
  container.insert(*queue.container.begin());
  queue.container.erase(queue.container.begin());
}
```
Each iteration moves the least remaining element of `queue` into `*this`;
the loop is structural recursion on `queue`'s sequence.  Returns the final
states `(*this, queue)`. -/
def merge (self : PQ K V) : PQ K V → PQ K V × PQ K V
  | [] => (self, [])
  | e :: rest => merge (self.orderedInsert (· ≤ ·) e) rest

/-- One iteration of `merge`'s loop body when `queue` aliases `*this`
(self-merge): insert a copy of the minimum, then erase `begin()`. -/
def mergeSelfStep (c : PQ K V) : PQ K V :=
  match c with
  | [] => []
  | m :: rest => ((m :: rest).orderedInsert (· ≤ ·) m).tail

/-- Fuel-bounded execution of `merge`'s `while (!queue.empty())` loop when
`queue` aliases `*this`.  `none` means the loop is still running when the
fuel runs out; `some c` means the loop exited with container state `c`. -/
def mergeSelfLoop : Nat → PQ K V → Option (PQ K V)
  | 0, _ => none
  | n + 1, c => if c.isEmpty then some c else mergeSelfLoop n (mergeSelfStep c)

/-- `operator==`: `container == queue.container`, i.e. `std::multiset`
equality — the two in-order element sequences are equal. -/
def pqEq (a b : PQ K V) : Bool := decide (a = b)

/-- `operator<`: `container < queue.container`, i.e.
`std::lexicographical_compare` of the two in-order sequences.  Mathlib's `<`
on lists is exactly this lexicographic strict order. -/
def pqLt (a b : PQ K V) : Bool := decide (a < b)

/-- Free `operator!=`: `!(first == second)`. -/
def pqNe (a b : PQ K V) : Bool := !(pqEq a b)

/-- Free `operator>`: `second < first`. -/
def pqGt (a b : PQ K V) : Bool := pqLt b a

/-- Free `operator>=`: `!(first < second)`. -/
def pqGe (a b : PQ K V) : Bool := !(pqLt a b)

/-- Free `operator<=`: `!(second < first)`. -/
def pqLe (a b : PQ K V) : Bool := !(pqLt b a)

/-- The body of the copy-assignment `operator=`:
```
decltype(container) copy(container);
copy = queue.container;
container.swap(copy);
```
Both reads happen before `*this` is written (only the final swap mutates
`*this`), so the aliased call `P = P` is the case `other = self`. -/
def copyAssign (self other : PQ K V) : PQ K V :=
  let copy := self
  let copy := other
  copy

/-- In a nondecreasingly sorted list, every member is at most the last
element. -/
theorem le_getLast_of_sorted {α : Type*} [LinearOrder α] :
    ∀ {l : List α}, l.Sorted (· ≤ ·) → ∀ (h : l ≠ []) (f : α), f ∈ l → f ≤ l.getLast h := by
  intro l
  induction l with
  | nil => intro _ h; exact absurd rfl h
  | cons a t ih =>
    intro hl h f hf
    cases t with
    | nil =>
      rw [List.mem_singleton] at hf
      subst hf
      exact le_refl _
    | cons b t' =>
      rw [List.getLast_cons (List.cons_ne_nil b t')]
      rcases List.mem_cons.mp hf with rfl | hf'
      · exact le_trans
          (List.rel_of_sorted_cons hl _ (List.getLast_mem (List.cons_ne_nil b t')))
          (le_refl _)
      · exact ih hl.of_cons (List.cons_ne_nil b t') f hf'

/-- C1: false of the code.  `changeValue` does not raise the not-found error
iff the key is absent: on the queue `{(value 5, key 1)}`, `changeValue(1, 3)`
raises `PriorityQueueNotFoundException` although an entry with key `1` is
present (the new pair `(3, 1)` sorts before every stored pair, so
`upper_bound` is `begin()`), while `changeValue(2, 10)` succeeds although no
entry has key `2` (it erases the unrelated entry `(5, 1)` and inserts
`(10, 2)`). -/
theorem changeValue_error_not_iff_key_absent :
    (∃ e ∈ ([toLex ((5 : Int), (1 : Int))] : PQ Int Int), (ofLex e).2 = 1) ∧
    changeValue ([toLex ((5 : Int), (1 : Int))] : PQ Int Int) 1 3 = .error .notFound ∧
    (∀ e ∈ ([toLex ((5 : Int), (1 : Int))] : PQ Int Int), (ofLex e).2 ≠ 2) ∧
    changeValue ([toLex ((5 : Int), (1 : Int))] : PQ Int Int) 2 10 = .ok [toLex (10, 2)] :=
  ⟨by decide, rfl, by decide, rfl⟩

/-- C3: the insert phase of the spec's example behaves as claimed
(`minValue = 3`, `minKey = 2`, `maxValue = 9`, `maxKey = 3`), but
`changeValue(2, 10)` then erases the entry `(9, 3)` rather than an entry with
key `2`: the entry `(value 3, key 2)` is still present afterwards, and
`minValue` is still `3`, not `5` as the claim states. -/
theorem example_trace_diverges_from_spec :
    insert (insert (insert ([] : PQ Int Int) 1 5) 2 3) 3 9
      = [toLex (3, 2), toLex (5, 1), toLex (9, 3)] ∧
    minValue ([toLex ((3 : Int), (2 : Int)), toLex (5, 1), toLex (9, 3)] : PQ Int Int) = .ok 3 ∧
    minKey ([toLex ((3 : Int), (2 : Int)), toLex (5, 1), toLex (9, 3)] : PQ Int Int) = .ok 2 ∧
    maxValue ([toLex ((3 : Int), (2 : Int)), toLex (5, 1), toLex (9, 3)] : PQ Int Int) = .ok 9 ∧
    maxKey ([toLex ((3 : Int), (2 : Int)), toLex (5, 1), toLex (9, 3)] : PQ Int Int) = .ok 3 ∧
    changeValue ([toLex ((3 : Int), (2 : Int)), toLex (5, 1), toLex (9, 3)] : PQ Int Int) 2 10
      = .ok [toLex (3, 2), toLex (5, 1), toLex (10, 2)] ∧
    toLex ((3 : Int), (2 : Int)) ∈ ([toLex (3, 2), toLex (5, 1), toLex (10, 2)] : PQ Int Int) ∧
    minValue ([toLex ((3 : Int), (2 : Int)), toLex (5, 1), toLex (10, 2)] : PQ Int Int) = .ok 3 :=
  ⟨by decide, rfl, rfl, rfl, rfl, rfl, by decide, rfl⟩

/-- C5: false of the code.  Starting from the empty queue, `insert(1, 5)`
followed by `changeValue(1, 3)` raises `PriorityQueueNotFoundException`
(because `(3, 1)` sorts before the stored pair `(5, 1)`), so no entry with
key `1` ever receives value `3`. -/
theorem insert_then_changeValue_fails :
    insert ([] : PQ Int Int) 1 5 = [toLex (5, 1)] ∧
    changeValue (insert ([] : PQ Int Int) 1 5) 1 3 = .error .notFound :=
  ⟨by decide, rfl⟩

/-- C4 counterexample: the earlier draft version of `deleteMin`/`deleteMax`
present in the same header raises `PriorityQueueEmptyException` on the empty
queue, so "deleteMin()/deleteMax() never raise the empty-container error on
any input" is false of that code. -/
theorem deleteMin_v1_raises_on_empty :
    deleteMin_v1 ([] : PQ Int Int) = .error .emptyQueue ∧
    deleteMax_v1 ([] : PQ Int Int) = .error .emptyQueue :=
  ⟨rfl, rfl⟩

/-- C4 (amended): on the empty container, the final version's `deleteMin()`
and `deleteMax()` raise no error and leave the container unchanged (they are
total functions and `size()` stays `0`), while the earlier draft version's
`deleteMin()`/`deleteMax()` raise the empty-container error there. -/
theorem delete_on_empty_behavior (q : PQ K V) (h : size q = 0) :
    deleteMin q = q ∧ deleteMax q = q ∧
    size (deleteMin q) = 0 ∧ size (deleteMax q) = 0 ∧
    deleteMin_v1 q = .error .emptyQueue ∧ deleteMax_v1 q = .error .emptyQueue := by
  have hq : q = [] := List.length_eq_zero.mp h
  subst hq
  exact ⟨rfl, rfl, rfl, rfl, rfl, rfl⟩

/-- Witness for C4's theorem at the empty queue over `Int` keys and values. -/
theorem delete_on_empty_behavior_witness :
    size ([] : PQ Int Int) = 0 ∧
    (deleteMin ([] : PQ Int Int) = [] ∧ deleteMax ([] : PQ Int Int) = [] ∧
      size (deleteMin ([] : PQ Int Int)) = 0 ∧ size (deleteMax ([] : PQ Int Int)) = 0 ∧
      deleteMin_v1 ([] : PQ Int Int) = .error .emptyQueue ∧
      deleteMax_v1 ([] : PQ Int Int) = .error .emptyQueue) :=
  ⟨rfl, delete_on_empty_behavior [] rfl⟩

/-- C10: self copy-assignment `P = P` goes through the copy-and-swap body
with `queue` aliasing `*this`; both reads precede the only write to `*this`,
so the observable state (the sequence, hence `size()` and the entry multiset)
is unchanged. -/
theorem self_copy_assignment_noop (q : PQ K V) :
    copyAssign q q = q ∧ size (copyAssign q q) = size q ∧
    ((copyAssign q q : Multiset (Entry K V)) = (q : Multiset (Entry K V))) :=
  ⟨rfl, rfl, rfl⟩

/-- C2: false of the code.  When `merge` is called with `queue` aliasing
`*this` and the container is non-empty, each loop iteration inserts a copy of
the minimum and erases the old one, leaving the container unchanged and
non-empty, so the `while (!queue.empty())` loop never exits: for every fuel
bound the loop is still running. -/
theorem merge_self_loop_diverges (fuel : Nat) (c : PQ K V) (h : c ≠ []) :
    mergeSelfLoop fuel c = none := by
  induction fuel generalizing c with
  | zero => rfl
  | succ n ih =>
    obtain ⟨m, rest, rfl⟩ : ∃ m rest, c = m :: rest := by
      cases c with
      | nil => exact absurd rfl h
      | cons m rest => exact ⟨m, rest, rfl⟩
    have hstep : mergeSelfStep (m :: rest) = m :: rest := by
      simp [mergeSelfStep, List.orderedInsert]
    rw [mergeSelfLoop, if_neg (by simp), hstep]
    exact ih _ (List.cons_ne_nil m rest)

/-- Witness for C2's theorem: the self-merge loop on the one-entry queue
`{(value 5, key 1)}` is still running after 5 iterations. -/
theorem merge_self_loop_diverges_witness :
    mergeSelfLoop 5 ([toLex ((5 : Int), (1 : Int))] : PQ Int Int) = none :=
  merge_self_loop_diverges 5 _ (List.cons_ne_nil _ _)

/-- C6: merging two distinct containers transfers every entry: the source
ends empty, the destination's `size()` is the sum of the original sizes, and
the destination holds exactly the multiset union of the two original entry
multisets (nothing duplicated or lost). -/
theorem merge_transfers_all (a b : PQ K V) :
    (merge a b).2 = [] ∧
    size (merge a b).1 = size a + size b ∧
    ((merge a b).1 : Multiset (Entry K V)) =
      (a : Multiset (Entry K V)) + (b : Multiset (Entry K V)) := by
  induction b generalizing a with
  | nil => exact ⟨rfl, rfl, by simp [merge]⟩
  | cons e rest ih =>
    obtain ⟨h1, h2, h3⟩ := ih (a.orderedInsert (· ≤ ·) e)
    have hlen : size (a.orderedInsert (· ≤ ·) e) = size a + 1 :=
      List.orderedInsert_length (· ≤ ·) a e
    have hperm : ((a.orderedInsert (· ≤ ·) e : PQ K V) : Multiset (Entry K V)) =
        ((e :: a : PQ K V) : Multiset (Entry K V)) :=
      Multiset.coe_eq_coe.mpr (List.perm_orderedInsert (· ≤ ·) e a)
    refine ⟨h1, ?_, ?_⟩
    · show size (merge (a.orderedInsert (· ≤ ·) e) rest).1 = size a + size (e :: rest)
      rw [h2, hlen]
      simp [size]
      omega
    · show ((merge (a.orderedInsert (· ≤ ·) e) rest).1 : Multiset (Entry K V)) =
        (a : Multiset (Entry K V)) + ((e :: rest : PQ K V) : Multiset (Entry K V))
      rw [h3, hperm]
      simp [Multiset.cons_add, Multiset.add_cons]
      exact List.perm_middle.symm

/-- C7: each read accessor raises the empty-container error exactly when
`empty()` is true; on a non-empty queue `minValue`/`minKey` return the value
and key of the entry ranked first in the lexicographic (value, key) order and
`maxValue`/`maxKey` those of the entry ranked last.  (The accessors are
`const`: they are embedded as pure functions of the queue state.) -/
theorem accessors_empty_error_and_extremes (q : PQ K V) (hq : IsPQ q) :
    (minValue q = .error .emptyQueue ↔ empty q = true) ∧
    (maxValue q = .error .emptyQueue ↔ empty q = true) ∧
    (minKey q = .error .emptyQueue ↔ empty q = true) ∧
    (maxKey q = .error .emptyQueue ↔ empty q = true) ∧
    (empty q = false →
      ∃ e ∈ q, minValue q = .ok (ofLex e).1 ∧ minKey q = .ok (ofLex e).2 ∧
        ∀ f ∈ q, e ≤ f) ∧
    (empty q = false →
      ∃ e ∈ q, maxValue q = .ok (ofLex e).1 ∧ maxKey q = .ok (ofLex e).2 ∧
        ∀ f ∈ q, f ≤ e) := by
  cases q with
  | nil => exact ⟨by simp [minValue, empty], by simp [maxValue, empty],
      by simp [minKey, empty], by simp [maxKey, empty],
      by simp [empty], by simp [empty]⟩
  | cons a t =>
    have hne : a :: t ≠ [] := List.cons_ne_nil a t
    have hlast : (a :: t).getLast? = some ((a :: t).getLast hne) :=
      List.getLast?_eq_getLast (a :: t) hne
    refine ⟨by simp [minValue, empty], ?_, by simp [minKey, empty], ?_, ?_, ?_⟩
    · rw [maxValue, hlast]
      simp [empty]
    · rw [maxKey, hlast]
      simp [empty]
    · intro _
      refine ⟨a, List.mem_cons_self a t, rfl, rfl, ?_⟩
      intro f hf
      rcases List.mem_cons.mp hf with rfl | hf'
      · exact le_refl f
      · exact List.rel_of_sorted_cons hq f hf'
    · intro _
      refine ⟨(a :: t).getLast hne, List.getLast_mem hne, ?_, ?_, ?_⟩
      · rw [maxValue, hlast]
      · rw [maxKey, hlast]
      · exact fun f hf => le_getLast_of_sorted hq hne f hf

/-- Witness for C7's theorem at the sorted queue
`{(value 3, key 2), (value 5, key 1)}` over `Int` keys and values. -/
theorem accessors_empty_error_and_extremes_witness :
    IsPQ ([toLex ((3 : Int), (2 : Int)), toLex (5, 1)] : PQ Int Int) ∧
    ((minValue ([toLex ((3 : Int), (2 : Int)), toLex (5, 1)] : PQ Int Int) = .error .emptyQueue ↔
        empty ([toLex ((3 : Int), (2 : Int)), toLex (5, 1)] : PQ Int Int) = true) ∧
      (maxValue ([toLex ((3 : Int), (2 : Int)), toLex (5, 1)] : PQ Int Int) = .error .emptyQueue ↔
        empty ([toLex ((3 : Int), (2 : Int)), toLex (5, 1)] : PQ Int Int) = true) ∧
      (minKey ([toLex ((3 : Int), (2 : Int)), toLex (5, 1)] : PQ Int Int) = .error .emptyQueue ↔
        empty ([toLex ((3 : Int), (2 : Int)), toLex (5, 1)] : PQ Int Int) = true) ∧
      (maxKey ([toLex ((3 : Int), (2 : Int)), toLex (5, 1)] : PQ Int Int) = .error .emptyQueue ↔
        empty ([toLex ((3 : Int), (2 : Int)), toLex (5, 1)] : PQ Int Int) = true) ∧
      (empty ([toLex ((3 : Int), (2 : Int)), toLex (5, 1)] : PQ Int Int) = false →
        ∃ e ∈ ([toLex ((3 : Int), (2 : Int)), toLex (5, 1)] : PQ Int Int),
          minValue ([toLex ((3 : Int), (2 : Int)), toLex (5, 1)] : PQ Int Int) = .ok (ofLex e).1 ∧
          minKey ([toLex ((3 : Int), (2 : Int)), toLex (5, 1)] : PQ Int Int) = .ok (ofLex e).2 ∧
          ∀ f ∈ ([toLex ((3 : Int), (2 : Int)), toLex (5, 1)] : PQ Int Int), e ≤ f) ∧
      (empty ([toLex ((3 : Int), (2 : Int)), toLex (5, 1)] : PQ Int Int) = false →
        ∃ e ∈ ([toLex ((3 : Int), (2 : Int)), toLex (5, 1)] : PQ Int Int),
          maxValue ([toLex ((3 : Int), (2 : Int)), toLex (5, 1)] : PQ Int Int) = .ok (ofLex e).1 ∧
          maxKey ([toLex ((3 : Int), (2 : Int)), toLex (5, 1)] : PQ Int Int) = .ok (ofLex e).2 ∧
          ∀ f ∈ ([toLex ((3 : Int), (2 : Int)), toLex (5, 1)] : PQ Int Int), f ≤ e)) :=
  ⟨by decide, accessors_empty_error_and_extremes _ (by decide)⟩

/-- C8: the six relational operators are mutually consistent:
`a <= b` equals `a < b || a == b`, `a > b` equals `b < a`, `a >= b` equals
`!(a < b)`, `a != b` equals `!(a == b)`, and exactly one of `a < b`,
`a == b`, `b < a` holds (the underlying lexicographic comparison of the
sorted sequences is a strict total order). -/
theorem relational_operators_consistent (a b : PQ K V) :
    pqLe a b = (pqLt a b || pqEq a b) ∧
    pqGt a b = pqLt b a ∧
    pqGe a b = !(pqLt a b) ∧
    pqNe a b = !(pqEq a b) ∧
    (pqLt a b).toNat + (pqEq a b).toNat + (pqLt b a).toNat = 1 := by
  rcases lt_trichotomy a b with h | rfl | h
  · have h1 : pqLt a b = true := decide_eq_true h
    have h2 : pqEq a b = false := decide_eq_false (ne_of_lt h)
    have h3 : pqLt b a = false := decide_eq_false (lt_asymm h)
    refine ⟨?_, rfl, rfl, rfl, ?_⟩ <;>
      simp [pqLe, pqGt, pqGe, pqNe, h1, h2, h3]
  · have h1 : pqLt a a = false := decide_eq_false (lt_irrefl a)
    have h2 : pqEq a a = true := decide_eq_true rfl
    refine ⟨?_, rfl, rfl, rfl, ?_⟩ <;>
      simp [pqLe, pqGt, pqGe, pqNe, h1, h2]
  · have h1 : pqLt a b = false := decide_eq_false (lt_asymm h)
    have h2 : pqEq a b = false := decide_eq_false (ne_of_gt h)
    have h3 : pqLt b a = true := decide_eq_true h
    refine ⟨?_, rfl, rfl, rfl, ?_⟩ <;>
      simp [pqLe, pqGt, pqGe, pqNe, h1, h2, h3]

end PriorityQueueSpec
